import Mathlib

/-!
Verification of the comment-driven documentation extractor of helm-docs
(`parseChartValuesFileComments` and its three package-level regexes in
`pkg/helm`), together with the data it produces.

The Go source works line by line over the contents of a chart's
`values.yaml` file.  Three anchored regular expressions drive a two-mode
state machine (searching for a values comment / accumulating one):

  valuesDescriptionRegex   = ^\s*# (.*) -- (.*)$
  commentContinuationRegex = ^\s*# (.*)$
  defaultValueRegex        = ^\s*# @default -- (.*)$

We embed lines as Lean `String`s (lists of characters; scanner lines never
contain a newline) and the three regex matches as executable functions.
Go's `regexp` package uses Perl-style leftmost-first matching, so in
`^\s*# (.*) -- (.*)$` the first greedy group extends to the *last*
occurrence of the literal `" -- "` delimiter; `^\s*` followed by the
literal `#` never backtracks because `#` is not a whitespace character,
so it consumes exactly the maximal leading whitespace run.
-/

namespace HelmDocs

/-- The character class of Go regexp `\s` (RE2 / Perl `\s`):
space, tab, newline, form feed, carriage return. -/
def goWhitespace (c : Char) : Bool :=
  c = ' ' || c = '\t' || c = '\n' || c = '\x0c' || c = '\r'

/-- Match a literal sequence of characters at the front of the input and
return the remainder, or `none` when the input does not start with the
literal.  This embeds a regex literal followed by a capture of the rest. -/
def stripLit : List Char → List Char → Option (List Char)
  | [], cs => some cs
  | _ :: _, [] => none
  | p :: ps, c :: cs => if c = p then stripLit ps cs else none

/-- The literal delimiter `" -- "` separating key and description in
`valuesDescriptionRegex`. -/
def descDelim : List Char := [' ', '-', '-', ' ']

/-- Split a character list at the *last* occurrence of `descDelim`,
returning the parts before and after it.  This is the submatch produced by
the greedy `(.*) -- (.*)` of `valuesDescriptionRegex`: the first group is
as long as possible.  The recursion prefers a split found in the tail
(a later occurrence) over one at the current position. -/
def splitLastDescDelim : List Char → Option (List Char × List Char)
  | [] => none
  | c :: rest =>
    match splitLastDescDelim rest with
    | some (a, b) => some (c :: a, b)
    | none =>
      match stripLit descDelim (c :: rest) with
      | some b => some ([], b)
      | none => none

/-- The literal part of `defaultValueRegex` after the leading whitespace. -/
def defaultLit : List Char :=
  ['#', ' ', '@', 'd', 'e', 'f', 'a', 'u', 'l', 't', ' ', '-', '-', ' ']

/-- Full-line match of `valuesDescriptionRegex` (`^\s*# (.*) -- (.*)$`):
strip the maximal leading whitespace run, require the literal `"# "`, then
split the remainder at the last `" -- "` delimiter (greedy first group).
Returns the two capture groups (key, description text). -/
def valuesDescriptionMatch (line : String) : Option (String × String) :=
  match line.data.dropWhile goWhitespace with
  | '#' :: ' ' :: rest =>
    match splitLastDescDelim rest with
    | some (a, b) => some (⟨a⟩, ⟨b⟩)
    | none => none
  | _ => none

/-- Full-line match of `defaultValueRegex` (`^\s*# @default -- (.*)$`):
strip the maximal leading whitespace run, require the literal
`"# @default -- "`, capture the remainder. -/
def defaultValueMatch (line : String) : Option String :=
  match stripLit defaultLit (line.data.dropWhile goWhitespace) with
  | some t => some ⟨t⟩
  | none => none

/-- Full-line match of `commentContinuationRegex` (`^\s*# (.*)$`):
strip the maximal leading whitespace run, require the literal `"# "`,
capture the remainder. -/
def commentContinuationMatch (line : String) : Option String :=
  match line.data.dropWhile goWhitespace with
  | '#' :: ' ' :: rest => some ⟨rest⟩
  | _ => none

/-- `type ChartValueDescription struct { Description string; Default string }`.
Both fields are plain Go strings; `Default` has no optional wrapper, its
zero value is the empty string. -/
structure ChartValueDescription where
  Description : String
  Default : String
deriving DecidableEq

/-- The `map[string]ChartValueDescription` built by the extractor, modelled
as a partial function from keys to records (Go map insertion overwrites the
entry for an existing key). -/
def DescMap : Type := String → Option ChartValueDescription

/-- `keyToDescriptions[key] = v`: functional overwrite of one key. -/
def mapInsert (m : DescMap) (k : String) (v : ChartValueDescription) : DescMap :=
  fun q => if q = k then some v else m q

/-- The empty `map[string]ChartValueDescription{}`. -/
def emptyDescMap : DescMap := fun _ => none

/-- The local state of the scan loop in `parseChartValuesFileComments`:
the `foundValuesComment` flag (false = searching, true = accumulating),
the `key` and `description` variables, and the map built so far. -/
structure ScanState where
  foundValuesComment : Bool
  key : String
  description : String
  keyToDescriptions : DescMap

/-- One iteration of the scan loop of `parseChartValuesFileComments` on
`currentLine`.  Searching: try `valuesDescriptionRegex`; on a match record
key and description and start accumulating, otherwise skip the line.
Accumulating: try `defaultValueRegex` first (close the record with the
captured default), then `commentContinuationRegex` (extend the description
with a space and the captured text), otherwise close the record with the
zero-value default and go back to searching. -/
def processLine (st : ScanState) (currentLine : String) : ScanState :=
  if !st.foundValuesComment then
    match valuesDescriptionMatch currentLine with
    | some (k, d) => { st with foundValuesComment := true, key := k, description := d }
    | none => st
  else
    match defaultValueMatch currentLine with
    | some dflt =>
      { st with
          keyToDescriptions := mapInsert st.keyToDescriptions st.key ⟨st.description, dflt⟩,
          foundValuesComment := false }
    | none =>
      match commentContinuationMatch currentLine with
      | some t => { st with description := st.description ++ " " ++ t }
      | none =>
        { st with
            keyToDescriptions := mapInsert st.keyToDescriptions st.key ⟨st.description, ""⟩,
            foundValuesComment := false }

/-- The scan loop: process each line in order. -/
def scanLines (st : ScanState) : List String → ScanState
  | [] => st
  | l :: ls => scanLines (processLine st l) ls

/-- Initial loop state: zero-valued `key`/`description`,
`foundValuesComment := false`, empty map. -/
def initState : ScanState :=
  { foundValuesComment := false, key := "", description := "", keyToDescriptions := emptyDescMap }

/-- The extractor on an in-memory list of lines: run the scan loop from the
initial state and return the accumulated map.  Note that a pending
accumulation at end of input is never written to the map. -/
def parseValuesComments (lines : List String) : DescMap :=
  (scanLines initState lines).keyToDescriptions

/-- The line source of the extractor, as the Go function observes it:
either opening `values.yaml` fails (`openError`), or the `bufio.Scanner`
yields `lines` and then stops, because of end of input
(`readError = none`) or because of a read failure (`readError = some e`,
in which case `Scan` returns false and the error is only retrievable
through `scanner.Err()`). -/
structure LineSource where
  openError : Option String
  lines : List String
  readError : Option String

/-- `parseChartValuesFileComments`: if opening the file fails, return the
empty map together with the error.  Otherwise scan the delivered lines and
return `(keyToDescriptions, nil)` — the Go code never consults
`scanner.Err()`, so a read failure (`readError`) does not influence the
returned error, and the map covers exactly the lines delivered before the
failure. -/
def parseChartValuesFileComments (src : LineSource) : DescMap × Option String :=
  match src.openError with
  | some e => (emptyDescMap, some e)
  | none => (parseValuesComments src.lines, none)

/-- Decidable check that `descDelim` occurs somewhere in a character list
(as a contiguous run). -/
def containsDescDelim : List Char → Bool
  | [] => false
  | c :: rest => (stripLit descDelim (c :: rest)).isSome || containsDescDelim rest

/-- The three characters `"-- "`; a text starting with them right after a
delimiter creates an overlapping later delimiter occurrence. -/
def dashDashSp : List Char := ['-', '-', ' ']

/-- Pointwise shape of a run of continuation lines: each line fails the
default-value pattern and matches the continuation pattern with the paired
capture. -/
def contsMatch : List String → List String → Bool
  | [], [] => true
  | l :: ls, t :: ts =>
    (defaultValueMatch l == none) && (commentContinuationMatch l == some t) && contsMatch ls ts
  | _, _ => false

/-- The record insertion performed by processing one line, if any:
`some (key, record)` when the line closes the pending record (with a
captured default, or without one), `none` when the line leaves the map
unchanged. -/
def finalizesWith (st : ScanState) (l : String) : Option (String × ChartValueDescription) :=
  if !st.foundValuesComment then none
  else
    match defaultValueMatch l with
    | some dflt => some (st.key, ⟨st.description, dflt⟩)
    | none =>
      match commentContinuationMatch l with
      | some _ => none
      | none => some (st.key, ⟨st.description, ""⟩)

/-- Scanning the given lines from the given state never closes a record
under the key `k`. -/
def noKeyFinalization (k : String) : ScanState → List String → Bool
  | _, [] => true
  | st, l :: ls =>
    (match finalizesWith st l with
     | some (q, _) => q != k
     | none => true) && noKeyFinalization k (processLine st l) ls

end HelmDocs

namespace HelmDocs

/-! ### Helper lemmas about the matchers -/

/-- Dropping the Go-whitespace run of `ws ++ '#' :: cs` yields `'#' :: cs`:
the `^\s*` of each regex consumes exactly the leading whitespace, and
cannot backtrack into the literal `#`. -/
theorem dropWhile_ws_hash (ws cs : List Char) (hws : ws.all goWhitespace = true) :
    (ws ++ '#' :: cs).dropWhile goWhitespace = '#' :: cs := by
  induction ws with
  | nil => simp [List.dropWhile, goWhitespace]
  | cons c ws ih =>
    simp only [List.all_cons, Bool.and_eq_true] at hws
    simp [List.dropWhile, hws.1, ih hws.2]

/-- A literal strips off its own prefix. -/
theorem stripLit_self (l t : List Char) : stripLit l (l ++ t) = some t := by
  induction l with
  | nil => rfl
  | cons c l ih => simp [stripLit, ih]


/-- Soundness of `stripLit`: a successful strip decomposes the input. -/
theorem stripLit_sound (l : List Char) :
    ∀ s t : List Char, stripLit l s = some t → s = l ++ t := by
  induction l with
  | nil =>
    intro s t h
    simp only [stripLit, Option.some.injEq] at h
    simpa using h
  | cons c l ih =>
    intro s t h
    match s with
    | [] => simp [stripLit] at h
    | a :: s =>
      simp only [stripLit] at h
      split at h
      · next heq => subst heq; simpa using ih s t h
      · exact absurd h (by simp)

/-- Unfolding equation of `splitLastDescDelim` on a cons cell. -/
theorem splitLastDescDelim_cons (c : Char) (rest : List Char) :
    splitLastDescDelim (c :: rest) =
      (match splitLastDescDelim rest with
       | some (a, b) => some (c :: a, b)
       | none =>
         match stripLit descDelim (c :: rest) with
         | some b => some ([], b)
         | none => none) := rfl

/-- Soundness of the greedy split: a successful split decomposes the input
around the delimiter. -/
theorem splitLastDescDelim_sound :
    ∀ cs a b : List Char, splitLastDescDelim cs = some (a, b) → cs = a ++ descDelim ++ b := by
  intro cs
  induction cs with
  | nil => intro a b h; simp [splitLastDescDelim] at h
  | cons c rest ih =>
    intro a b h
    rw [splitLastDescDelim_cons] at h
    cases hr : splitLastDescDelim rest with
    | some pq =>
      obtain ⟨p, q⟩ := pq
      rw [hr] at h
      simp only [Option.some.injEq, Prod.mk.injEq] at h
      obtain ⟨ha, hb⟩ := h
      subst ha; subst hb
      have hrest := ih p q hr
      simp [hrest]
    | none =>
      rw [hr] at h
      cases hs : stripLit descDelim (c :: rest) with
      | some b0 =>
        rw [hs] at h
        simp only [Option.some.injEq, Prod.mk.injEq] at h
        obtain ⟨ha, hb⟩ := h
        subst ha; subst hb
        simpa using stripLit_sound descDelim (c :: rest) _ hs
      | none => rw [hs] at h; cases h

/-- Completeness and maximality of the greedy split: whenever the input
decomposes around the delimiter, the split succeeds and its first part is
at least as long as the first part of the given decomposition (the greedy
first group of `valuesDescriptionRegex` is the longest one). -/
theorem splitLastDescDelim_max :
    ∀ a b : List Char, ∃ p q : List Char,
      splitLastDescDelim (a ++ descDelim ++ b) = some (p, q) ∧ a.length ≤ p.length := by
  intro a
  induction a with
  | nil =>
    intro b
    have hcons : ([] : List Char) ++ descDelim ++ b = ' ' :: ('-' :: '-' :: ' ' :: b) := rfl
    rw [hcons, splitLastDescDelim_cons]
    cases hr : splitLastDescDelim ('-' :: '-' :: ' ' :: b) with
    | some pq =>
      obtain ⟨p, q⟩ := pq
      exact ⟨' ' :: p, q, rfl, Nat.zero_le _⟩
    | none =>
      have hstrip : stripLit descDelim (' ' :: '-' :: '-' :: ' ' :: b) = some b :=
        stripLit_self descDelim b
      rw [hstrip]
      exact ⟨[], b, rfl, Nat.le_refl 0⟩
  | cons c a ih =>
    intro b
    obtain ⟨p, q, hsplit, hlen⟩ := ih b
    have hcons : (c :: a) ++ descDelim ++ b = c :: (a ++ descDelim ++ b) := by simp
    rw [hcons, splitLastDescDelim_cons, hsplit]
    exact ⟨c :: p, q, rfl, by simpa using hlen⟩

/-- If the delimiter occurs nowhere in the input, the greedy split fails. -/
theorem splitLastDescDelim_none (cs : List Char) (h : containsDescDelim cs = false) :
    splitLastDescDelim cs = none := by
  induction cs with
  | nil => rfl
  | cons c rest ih =>
    simp only [containsDescDelim, Bool.or_eq_false_iff] at h
    rw [splitLastDescDelim_cons, ih h.2]
    cases hs : stripLit descDelim (c :: rest) with
    | some b => rw [hs] at h; simp at h
    | none => rfl

/-- Prepending characters to an input with a successful split keeps the
split position (the occurrence found stays the last one). -/
theorem splitLastDescDelim_prepend (a : List Char) :
    ∀ cs p q : List Char, splitLastDescDelim cs = some (p, q) →
      splitLastDescDelim (a ++ cs) = some (a ++ p, q) := by
  induction a with
  | nil => intro cs p q h; simpa using h
  | cons c a ih =>
    intro cs p q h
    have hthis : splitLastDescDelim (a ++ cs) = some (a ++ p, q) := ih cs p q h
    rw [List.cons_append, splitLastDescDelim_cons, hthis]
    rfl

/-- A text that neither contains the delimiter nor begins with `"-- "`
creates no delimiter occurrence after one: the split of `descDelim ++ t`
is exactly `([], t)`. -/
theorem splitLastDescDelim_delim_t (t : List Char)
    (h1 : containsDescDelim t = false) (h2 : stripLit dashDashSp t = none) :
    splitLastDescDelim (descDelim ++ t) = some ([], t) := by
  have htail : containsDescDelim ('-' :: '-' :: ' ' :: t) = false := by
    have hs1 : stripLit descDelim ('-' :: '-' :: ' ' :: t) = none := by
      simp [stripLit, descDelim]
    have hs2 : stripLit descDelim ('-' :: ' ' :: t) = none := by
      simp [stripLit, descDelim]
    have hs3 : stripLit descDelim (' ' :: t) = none := by
      have : stripLit descDelim (' ' :: t) = stripLit dashDashSp t := by
        simp [stripLit, descDelim, dashDashSp]
      rw [this, h2]
    simp [containsDescDelim, hs1, hs2, hs3, h1]
  have hnone : splitLastDescDelim ('-' :: '-' :: ' ' :: t) = none :=
    splitLastDescDelim_none _ htail
  have hcons : descDelim ++ t = ' ' :: ('-' :: '-' :: ' ' :: t) := rfl
  rw [hcons, splitLastDescDelim_cons, hnone]
  have hstrip : stripLit descDelim (' ' :: '-' :: '-' :: ' ' :: t) = some t :=
    stripLit_self descDelim t
  rw [hstrip]

/-- Building a string from an appended character list is string append. -/
theorem mk_append (a b : List Char) : (⟨a ++ b⟩ : String) = (⟨a⟩ : String) ++ (⟨b⟩ : String) := rfl


/-- Elimination form of a `valuesDescriptionRegex` match: after the
whitespace run the line is exactly `"# "`, the key, the delimiter, and the
description text. -/
theorem descMatch_elim (line : String) (k d : String)
    (h : valuesDescriptionMatch line = some (k, d)) :
    line.data.dropWhile goWhitespace = '#' :: ' ' :: (k.data ++ descDelim ++ d.data) := by
  unfold valuesDescriptionMatch at h
  split at h
  · next rest heq =>
    split at h
    · next a b hsplit =>
      simp only [Option.some.injEq, Prod.mk.injEq] at h
      obtain ⟨hk, hd⟩ := h
      subst hk; subst hd
      rw [heq, splitLastDescDelim_sound rest a b hsplit]
    · cases h
  · cases h

/-- A line matching `valuesDescriptionRegex` with captures `(k, d)` also
matches `commentContinuationRegex`, with capture `k ++ " -- " ++ d`:
the continuation pattern covers every comment line, description-start
shaped ones included. -/
theorem contMatch_of_descMatch (line k d : String)
    (h : valuesDescriptionMatch line = some (k, d)) :
    commentContinuationMatch line = some (k ++ " -- " ++ d) := by
  have helim := descMatch_elim line k d h
  unfold commentContinuationMatch
  rw [helim]
  rfl

/-- Elimination form of a `defaultValueRegex` match: after the whitespace
run the line is exactly the literal `"# @default -- "` and the capture. -/
theorem defaultMatch_elim (line t : String)
    (h : defaultValueMatch line = some t) :
    line.data.dropWhile goWhitespace = defaultLit ++ t.data := by
  unfold defaultValueMatch at h
  split at h
  · next r hs =>
    simp only [Option.some.injEq] at h
    subst h
    exact stripLit_sound defaultLit _ r hs
  · cases h

/-- A line matching `defaultValueRegex` also matches
`commentContinuationRegex`: the default-override annotation has the shape
of a continuation comment as well. -/
theorem contMatch_of_defaultMatch (line t : String)
    (h : defaultValueMatch line = some t) :
    (commentContinuationMatch line).isSome = true := by
  have helim := defaultMatch_elim line t h
  unfold commentContinuationMatch
  rw [helim]
  rfl

/-! ### Helper lemmas about the scan loop -/

/-- The scan loop splits over list append. -/
theorem scanLines_append (P Q : List String) :
    ∀ st : ScanState, scanLines st (P ++ Q) = scanLines (scanLines st P) Q := by
  induction P with
  | nil => intro st; rfl
  | cons l P ih => intro st; simpa [scanLines] using ih (processLine st l)

/-- Searching mode, no `valuesDescriptionRegex` match: the line is skipped. -/
theorem processLine_searching_skip (st : ScanState) (l : String)
    (hmode : st.foundValuesComment = false) (h : valuesDescriptionMatch l = none) :
    processLine st l = st := by
  simp [processLine, hmode, h]

/-- Searching mode, `valuesDescriptionRegex` match: record the captures and
start accumulating; the map is untouched. -/
theorem processLine_searching_found (st : ScanState) (l k d : String)
    (hmode : st.foundValuesComment = false) (h : valuesDescriptionMatch l = some (k, d)) :
    processLine st l = { st with foundValuesComment := true, key := k, description := d } := by
  simp [processLine, hmode, h]

/-- Accumulating mode, `defaultValueRegex` match: close the record with the
captured default and return to searching. -/
theorem processLine_accumulating_default (st : ScanState) (l t : String)
    (hmode : st.foundValuesComment = true) (h : defaultValueMatch l = some t) :
    processLine st l =
      { st with
          keyToDescriptions := mapInsert st.keyToDescriptions st.key ⟨st.description, t⟩,
          foundValuesComment := false } := by
  simp [processLine, hmode, h]

/-- Accumulating mode, continuation match (after the default pattern
fails): extend the description, stay accumulating. -/
theorem processLine_accumulating_cont (st : ScanState) (l t : String)
    (hmode : st.foundValuesComment = true)
    (hdef : defaultValueMatch l = none) (hcont : commentContinuationMatch l = some t) :
    processLine st l = { st with description := st.description ++ " " ++ t } := by
  simp [processLine, hmode, hdef, hcont]

/-- Accumulating mode, no pattern matches: close the record with the
zero-value default and return to searching. -/
theorem processLine_accumulating_close (st : ScanState) (l : String)
    (hmode : st.foundValuesComment = true)
    (hdef : defaultValueMatch l = none) (hcont : commentContinuationMatch l = none) :
    processLine st l =
      { st with
          keyToDescriptions := mapInsert st.keyToDescriptions st.key ⟨st.description, ""⟩,
          foundValuesComment := false } := by
  simp [processLine, hmode, hdef, hcont]

/-- Scanning a run of continuation lines from accumulating mode appends
each captured text, space separated and in order, to the description;
mode, key and map are unchanged. -/
theorem scanLines_conts (conts : List String) :
    ∀ (ts : List String) (st : ScanState), st.foundValuesComment = true →
      contsMatch conts ts = true →
      scanLines st conts =
        { st with description := ts.foldl (fun acc t => acc ++ " " ++ t) st.description } := by
  induction conts with
  | nil =>
    intro ts st hmode h
    cases ts with
    | nil => simp [scanLines, List.foldl]
    | cons t ts => simp [contsMatch] at h
  | cons l ls ih =>
    intro ts st hmode h
    cases ts with
    | nil => simp [contsMatch] at h
    | cons t ts =>
      simp only [contsMatch, Bool.and_eq_true, beq_iff_eq] at h
      obtain ⟨⟨hdef, hcont⟩, hrest⟩ := h
      have hstep := processLine_accumulating_cont st l t hmode hdef hcont
      have hih := ih ts { st with description := st.description ++ " " ++ t } hmode hrest
      show scanLines (processLine st l) ls = _
      rw [hstep, hih]
      rfl

/-- Scanning lines that each fail the default pattern and match the
continuation pattern keeps the machine accumulating and the map unchanged. -/
theorem scanLines_conts_weak (conts : List String) :
    ∀ st : ScanState, st.foundValuesComment = true →
      (∀ l ∈ conts, defaultValueMatch l = none ∧ (commentContinuationMatch l).isSome = true) →
      (scanLines st conts).keyToDescriptions = st.keyToDescriptions ∧
        (scanLines st conts).foundValuesComment = true := by
  induction conts with
  | nil => intro st hmode _; exact ⟨rfl, hmode⟩
  | cons l ls ih =>
    intro st hmode h
    obtain ⟨hdef, hcont⟩ := h l (by simp)
    obtain ⟨t, ht⟩ := Option.isSome_iff_exists.mp hcont
    have hstep := processLine_accumulating_cont st l t hmode hdef ht
    have hrest := ih { st with description := st.description ++ " " ++ t } hmode
      (fun x hx => h x (by simp [hx]))
    show (scanLines (processLine st l) ls).keyToDescriptions = _ ∧
      (scanLines (processLine st l) ls).foundValuesComment = true
    rw [hstep]
    exact hrest

/-- `finalizesWith` describes exactly how one line changes the map: an
insertion of the returned (key, record) pair, or no change at all. -/
theorem processLine_map (st : ScanState) (l : String) :
    (processLine st l).keyToDescriptions =
      (match finalizesWith st l with
       | some (k, v) => mapInsert st.keyToDescriptions k v
       | none => st.keyToDescriptions) := by
  cases hmode : st.foundValuesComment with
  | false =>
    simp only [processLine, finalizesWith, hmode]
    cases hv : valuesDescriptionMatch l <;> simp [hv]
  | true =>
    simp only [processLine, finalizesWith, hmode]
    cases hd : defaultValueMatch l with
    | some t => simp
    | none => cases hc : commentContinuationMatch l <;> simp

/-- A line reported as finalizing `(k, v)` stores `v` under `k`. -/
theorem processLine_finalized (st : ScanState) (l : String) (k : String)
    (v : ChartValueDescription) (h : finalizesWith st l = some (k, v)) :
    (processLine st l).keyToDescriptions k = some v := by
  rw [processLine_map, h]
  simp [mapInsert]

/-- If no line of a suffix finalizes a record under `k`, the entry for `k`
survives the whole suffix unchanged. -/
theorem scanLines_no_finalization (k : String) (S : List String) :
    ∀ st : ScanState, noKeyFinalization k st S = true →
      (scanLines st S).keyToDescriptions k = st.keyToDescriptions k := by
  induction S with
  | nil => intro st _; rfl
  | cons l ls ih =>
    intro st h
    simp only [noKeyFinalization, Bool.and_eq_true] at h
    obtain ⟨hhead, hrest⟩ := h
    have hstep : (processLine st l).keyToDescriptions k = st.keyToDescriptions k := by
      rw [processLine_map]
      cases hf : finalizesWith st l with
      | none => rfl
      | some kv =>
        obtain ⟨q, v⟩ := kv
        rw [hf] at hhead
        simp only [bne_iff_ne, ne_eq] at hhead
        have hne : ¬k = q := fun hh => hhead hh.symm
        simp [mapInsert, hne]
    show (scanLines (processLine st l) ls).keyToDescriptions k = _
    rw [ih (processLine st l) hrest, hstep]

/-- `scanLines` at the shape `⟨ws ++ "# " ++ rest⟩`: the description
pattern reduces to the greedy split of `rest`. -/
theorem descMatch_mk (ws rest : List Char) (hws : ws.all goWhitespace = true) :
    valuesDescriptionMatch ⟨ws ++ '#' :: ' ' :: rest⟩ =
      (match splitLastDescDelim rest with
       | some (a, b) => some ((⟨a⟩ : String), (⟨b⟩ : String))
       | none => none) := by
  unfold valuesDescriptionMatch
  have hdata : (⟨ws ++ '#' :: ' ' :: rest⟩ : String).data = ws ++ '#' :: (' ' :: rest) := rfl
  rw [hdata, dropWhile_ws_hash ws (' ' :: rest) hws]
  rfl

/-- The extractor never leaves searching mode when no line matches the
description pattern. -/
theorem scanLines_all_skipped (lines : List String) :
    (∀ l ∈ lines, valuesDescriptionMatch l = none) → scanLines initState lines = initState := by
  induction lines with
  | nil => intro _; rfl
  | cons l ls ih =>
    intro h
    have hskip := processLine_searching_skip initState l rfl (h l (by simp))
    show scanLines (processLine initState l) ls = initState
    rw [hskip]
    exact ih (fun x hx => h x (by simp [hx]))

/-! ### The claims -/

/-- C1 counterexample: while accumulating (after `"# foo -- A"`), the
description-start-shaped comment `"# bar -- B"` does not finalize the
record for `foo` with description `"A"`; it is appended to the pending
description as a continuation, so the final record for `foo` carries
description `"A bar -- B"` (and no record for `bar` exists, the line
never being re-examined as a description start). -/
theorem C1_counterexample :
    parseValuesComments ["# foo -- A", "# bar -- B", "x: 1"] "foo" ≠ some ⟨"A", ""⟩ ∧
    parseValuesComments ["# foo -- A", "# bar -- B", "x: 1"] "foo" = some ⟨"A bar -- B", ""⟩ ∧
    parseValuesComments ["# foo -- A", "# bar -- B", "x: 1"] "bar" = none ∧
    (scanLines initState ["# foo -- A", "# bar -- B"]).foundValuesComment = true := by
  refine ⟨?_, by decide, by decide, by decide⟩
  decide

/-- C1 (amended): while the extractor is accumulating, a comment line of
description-start shape that does not match the default pattern is treated
as a continuation (the continuation pattern covers every comment line):
its whole text `key ++ " -- " ++ text` is appended to the pending
description after a space, and the machine stays in accumulating mode; no
record is finalized by such a line. -/
theorem C1_desc_shape_is_continuation (st : ScanState) (line k d : String)
    (hmode : st.foundValuesComment = true)
    (hshape : valuesDescriptionMatch line = some (k, d))
    (hnotdef : defaultValueMatch line = none) :
    processLine st line =
      { st with description := st.description ++ " " ++ (k ++ " -- " ++ d) } :=
  processLine_accumulating_cont st line _ hmode hnotdef (contMatch_of_descMatch line k d hshape)

/-- C1 witness: the amended statement at the concrete accumulating state
reached after `"# foo -- A"` and the line `"# bar -- B"`. -/
theorem C1_witness :
    valuesDescriptionMatch "# bar -- B" = some ("bar", "B") ∧
    defaultValueMatch "# bar -- B" = none ∧
    processLine ⟨true, "foo", "A", emptyDescMap⟩ "# bar -- B" =
      { (⟨true, "foo", "A", emptyDescMap⟩ : ScanState) with
          description := "A" ++ " " ++ ("bar" ++ " -- " ++ "B") } :=
  ⟨by decide, by decide,
   C1_desc_shape_is_continuation ⟨true, "foo", "A", emptyDescMap⟩ "# bar -- B" "bar" "B"
     rfl (by decide) (by decide)⟩

/-- C2 counterexample: on `"# a -- b -- c"` the captured key is not the
shortest run up to the first delimiter (`"a"`) but the longest run up to
the last delimiter (`"a -- b"`), because the Go regexp group `(.*)` is
greedy; in searching mode the pending key becomes `"a -- b"`. -/
theorem C2_counterexample :
    valuesDescriptionMatch "# a -- b -- c" ≠ some ("a", "b -- c") ∧
    valuesDescriptionMatch "# a -- b -- c" = some ("a -- b", "c") ∧
    (processLine initState "# a -- b -- c").key = "a -- b" ∧
    (processLine initState "# a -- b -- c").description = "c" := by
  refine ⟨?_, by decide, by decide, by decide⟩
  decide

/-- C2 (amended): for a matched line, after the whitespace run the line is
exactly `"# "`, the key, one delimiter, and the text; and the captured key
is the greedy (longest) run of characters up to the delimiter — every
other decomposition around a delimiter has a first part no longer than
the captured key.  For a line with several delimiters the key therefore
reaches the last one. -/
theorem C2_greedy_key (line key text : String)
    (hmatch : valuesDescriptionMatch line = some (key, text)) :
    line.data.dropWhile goWhitespace = '#' :: ' ' :: (key.data ++ descDelim ++ text.data) ∧
    ∀ a b : List Char, key.data ++ descDelim ++ text.data = a ++ descDelim ++ b →
      a.length ≤ key.data.length := by
  refine ⟨descMatch_elim line key text hmatch, ?_⟩
  intro a b hab
  have hsplit : splitLastDescDelim (key.data ++ descDelim ++ text.data) =
      some (key.data, text.data) := by
    unfold valuesDescriptionMatch at hmatch
    split at hmatch
    · next rest heq =>
      split at hmatch
      · next p q hpq =>
        simp only [Option.some.injEq, Prod.mk.injEq] at hmatch
        obtain ⟨hk, hd⟩ := hmatch
        subst hk; subst hd
        have hr : rest = p ++ descDelim ++ q := splitLastDescDelim_sound rest p q hpq
        rw [← hr] at *
        exact hpq
      · cases hmatch
    · cases hmatch
  obtain ⟨p, q, hpq, hlen⟩ := splitLastDescDelim_max a b
  rw [← hab, hsplit] at hpq
  simp only [Option.some.injEq, Prod.mk.injEq] at hpq
  obtain ⟨hp, _⟩ := hpq
  rw [hp]
  exact hlen

/-- C2 witness: the amended statement at `"# a -- b -- c"` with captures
`("a -- b", "c")`. -/
theorem C2_witness :
    ("# a -- b -- c" : String).data.dropWhile goWhitespace =
      '#' :: ' ' :: (("a -- b" : String).data ++ descDelim ++ ("c" : String).data) ∧
    ∀ a b : List Char,
      ("a -- b" : String).data ++ descDelim ++ ("c" : String).data = a ++ descDelim ++ b →
      a.length ≤ ("a -- b" : String).data.length :=
  C2_greedy_key "# a -- b -- c" "a -- b" "c" (by decide)

/-- C3: an input whose processing ends while still accumulating — some
prefix leaves the machine searching, then a description-start line is
followed only by continuation comments — produces exactly the map of the
prefix: the pending key is never written (it is in the result only if an
earlier occurrence was finalized during the prefix) and the pending
description is discarded. -/
theorem C3_trailing_accumulation_dropped (P : List String) (start : String)
    (conts : List String)
    (hP : (scanLines initState P).foundValuesComment = false)
    (hstart : (valuesDescriptionMatch start).isSome = true)
    (hconts : ∀ l ∈ conts,
      defaultValueMatch l = none ∧ (commentContinuationMatch l).isSome = true) :
    (scanLines initState (P ++ start :: conts)).foundValuesComment = true ∧
    parseValuesComments (P ++ start :: conts) = (scanLines initState P).keyToDescriptions := by
  obtain ⟨⟨k, d⟩, hkd⟩ := Option.isSome_iff_exists.mp hstart
  have hstep := processLine_searching_found (scanLines initState P) start k d hP hkd
  have hw := scanLines_conts_weak conts
    { scanLines initState P with foundValuesComment := true, key := k, description := d }
    rfl hconts
  have happ : scanLines initState (P ++ start :: conts) =
      scanLines (processLine (scanLines initState P) start) conts := by
    rw [scanLines_append]
    rfl
  refine ⟨?_, ?_⟩
  · rw [happ, hstep]
    exact hw.2
  · show (scanLines initState (P ++ start :: conts)).keyToDescriptions = _
    rw [happ, hstep]
    exact hw.1

/-- C3 witness: `"a: 1"` leaves the machine searching, `"# k -- v"` starts
accumulating, the trailing continuation `"# more"` never terminates, so
the result equals the (empty) map of the prefix. -/
theorem C3_witness :
    (scanLines initState ["a: 1"]).foundValuesComment = false ∧
    (valuesDescriptionMatch "# k -- v").isSome = true ∧
    ((scanLines initState (["a: 1"] ++ "# k -- v" :: ["# more"])).foundValuesComment = true ∧
     parseValuesComments (["a: 1"] ++ "# k -- v" :: ["# more"]) =
       (scanLines initState ["a: 1"]).keyToDescriptions) :=
  ⟨by decide, by decide,
   C3_trailing_accumulation_dropped ["a: 1"] "# k -- v" ["# more"]
     (by decide) (by decide) (by decide)⟩

/-- C4: in accumulating mode a line matching the default-override pattern
— which also has the shape of a continuation comment — always closes the
current key's record with the accumulated description and the captured
default, and returns the machine to searching mode; it is never appended
to the description, because the default pattern is attempted first. -/
theorem C4_default_closes_record (st : ScanState) (line dflt : String)
    (hmode : st.foundValuesComment = true)
    (hdef : defaultValueMatch line = some dflt) :
    (commentContinuationMatch line).isSome = true ∧
    processLine st line =
      { st with
          keyToDescriptions := mapInsert st.keyToDescriptions st.key ⟨st.description, dflt⟩,
          foundValuesComment := false } :=
  ⟨contMatch_of_defaultMatch line dflt hdef,
   processLine_accumulating_default st line dflt hmode hdef⟩

/-- C4 witness: the statement at the accumulating state for `image.tag`
and the spec's example line. -/
theorem C4_witness :
    defaultValueMatch "# @default -- \"latest\"" = some "\"latest\"" ∧
    ((commentContinuationMatch "# @default -- \"latest\"").isSome = true ∧
     processLine ⟨true, "image.tag", "The image tag to use", emptyDescMap⟩
         "# @default -- \"latest\"" =
       { (⟨true, "image.tag", "The image tag to use", emptyDescMap⟩ : ScanState) with
           keyToDescriptions :=
             mapInsert emptyDescMap "image.tag" ⟨"The image tag to use", "\"latest\""⟩,
           foundValuesComment := false }) :=
  ⟨by decide,
   C4_default_closes_record ⟨true, "image.tag", "The image tag to use", emptyDescMap⟩
     "# @default -- \"latest\"" "\"latest\"" rfl (by decide)⟩

/-- C5: a description-start line, a run of continuation comments, and a
terminating line store, under the captured key, a record whose description
is the start text followed by each continuation text in line order, all
joined by single spaces, and whose default is the empty string; the
machine returns to searching mode. -/
theorem C5_description_space_join (st : ScanState) (start term : String)
    (conts ts : List String) (k d : String)
    (hmode : st.foundValuesComment = false)
    (hstart : valuesDescriptionMatch start = some (k, d))
    (hconts : contsMatch conts ts = true)
    (hterm1 : defaultValueMatch term = none)
    (hterm2 : commentContinuationMatch term = none) :
    (scanLines st (start :: (conts ++ [term]))).keyToDescriptions =
      mapInsert st.keyToDescriptions k
        ⟨ts.foldl (fun acc t => acc ++ " " ++ t) d, ""⟩ ∧
    (scanLines st (start :: (conts ++ [term]))).foundValuesComment = false := by
  have hstep := processLine_searching_found st start k d hmode hstart
  have hrun := scanLines_conts conts ts
    { st with foundValuesComment := true, key := k, description := d } rfl hconts
  have hclose := processLine_accumulating_close
    { st with
        foundValuesComment := true, key := k,
        description := ts.foldl (fun acc t => acc ++ " " ++ t) d }
    term rfl hterm1 hterm2
  have hfinal : scanLines st (start :: (conts ++ [term])) =
      { st with
          foundValuesComment := false, key := k,
          description := ts.foldl (fun acc t => acc ++ " " ++ t) d,
          keyToDescriptions :=
            mapInsert st.keyToDescriptions k
              ⟨ts.foldl (fun acc t => acc ++ " " ++ t) d, ""⟩ } := by
    show scanLines (processLine st start) (conts ++ [term]) = _
    rw [hstep, scanLines_append]
    rw [hrun]
    show processLine
        { st with
            foundValuesComment := true, key := k,
            description := ts.foldl (fun acc t => acc ++ " " ++ t) d } term = _
    rw [hclose]
  rw [hfinal]
  exact ⟨rfl, rfl⟩

/-- C5 witness: the spec's own example — `"# foo -- This is"`,
`"# a description"`, `"foo: bar"` — stores description
`"This is a description"` with empty default. -/
theorem C5_witness :
    ((scanLines initState ("# foo -- This is" :: (["# a description"] ++ ["foo: bar"]))).keyToDescriptions =
      mapInsert initState.keyToDescriptions "foo"
        ⟨["a description"].foldl (fun acc t => acc ++ " " ++ t) "This is", ""⟩ ∧
     (scanLines initState ("# foo -- This is" :: (["# a description"] ++ ["foo: bar"]))).foundValuesComment = false) ∧
    ["a description"].foldl (fun acc t => acc ++ " " ++ t) "This is" = "This is a description" :=
  ⟨C5_description_space_join initState "# foo -- This is" "foo: bar"
     ["# a description"] ["a description"] "foo" "This is"
     rfl (by decide) (by decide) (by decide) (by decide),
   by decide⟩

/-- C6: when a key is documented more than once and each occurrence is
finalized (lines `li` and `lj` close records for the same key `k`, and no
later line closes another record for `k`), the result holds exactly the
record of the latest finalized occurrence: later insertion overwrites the
earlier one under the string-equal key. -/
theorem C6_last_write_wins (P M S : List String) (li lj : String) (k : String)
    (vi vj : ChartValueDescription)
    (_hi : finalizesWith (scanLines initState P) li = some (k, vi))
    (hj : finalizesWith (scanLines initState (P ++ li :: M)) lj = some (k, vj))
    (hS : noKeyFinalization k (scanLines initState (P ++ li :: M ++ [lj])) S = true) :
    parseValuesComments (P ++ li :: (M ++ lj :: S)) k = some vj := by
  have hsplit : scanLines initState (P ++ li :: (M ++ lj :: S)) =
      scanLines (processLine (scanLines initState (P ++ li :: M)) lj) S := by
    have h1 : P ++ li :: (M ++ lj :: S) = (P ++ li :: M) ++ lj :: S := by simp
    rw [h1, scanLines_append]
    rfl
  have hstJ : scanLines initState (P ++ li :: M ++ [lj]) =
      processLine (scanLines initState (P ++ li :: M)) lj := by
    have h1 : P ++ li :: M ++ [lj] = (P ++ li :: M) ++ [lj] := by simp
    rw [h1, scanLines_append]
    rfl
  rw [hstJ] at hS
  show (scanLines initState (P ++ li :: (M ++ lj :: S))).keyToDescriptions k = some vj
  rw [hsplit,
    scanLines_no_finalization k S (processLine (scanLines initState (P ++ li :: M)) lj) hS]
  exact processLine_finalized (scanLines initState (P ++ li :: M)) lj k vj hj

/-- C6 witness: key `"x"` documented twice, each occurrence finalized by a
non-comment line; the result holds the second description. -/
theorem C6_witness :
    finalizesWith (scanLines initState ["# x -- first"]) "a: 1" = some ("x", ⟨"first", ""⟩) ∧
    finalizesWith (scanLines initState (["# x -- first"] ++ "a: 1" :: ["# x -- second"])) "b: 2" =
      some ("x", ⟨"second", ""⟩) ∧
    parseValuesComments (["# x -- first"] ++ "a: 1" :: (["# x -- second"] ++ "b: 2" :: [])) "x" =
      some ⟨"second", ""⟩ :=
  ⟨by decide, by decide,
   C6_last_write_wins ["# x -- first"] ["# x -- second"] [] "a: 1" "b: 2" "x"
     ⟨"first", ""⟩ ⟨"second", ""⟩ (by decide) (by decide) (by decide)⟩

/-- C7 counterexample: with a read failure after two delivered lines, the
extraction returns a nil error together with the partial mapping built
from the delivered lines — contradicting the claim that a failure while
reading lines yields an I/O error and no partial result. -/
theorem C7_counterexample :
    (parseChartValuesFileComments ⟨none, ["# a -- b", "x: 1"], some "read failure"⟩).2 = none ∧
    (parseChartValuesFileComments ⟨none, ["# a -- b", "x: 1"], some "read failure"⟩).1 "a" =
      some ⟨"b", ""⟩ := by
  exact ⟨rfl, by decide⟩

/-- C7 (amended): only a failure to open the file is reported — the error
is returned together with an empty mapping.  A failure while reading lines
is not detected: the scan loop simply ends (the scanner's stored error is
never consulted) and the function returns a nil error together with the
mapping built from the lines delivered before the failure, whatever the
read error is. -/
theorem C7_open_error_only (src : LineSource) :
    (∀ e, src.openError = some e →
      parseChartValuesFileComments src = (emptyDescMap, some e)) ∧
    (src.openError = none → ∀ r : Option String,
      parseChartValuesFileComments { src with readError := r } =
        (parseValuesComments src.lines, none)) := by
  constructor
  · intro e he
    simp [parseChartValuesFileComments, he]
  · intro h r
    show parseChartValuesFileComments ⟨src.openError, src.lines, r⟩ = _
    rw [h]
    rfl

/-- C7 witness: the amended statement at a failing open and at a
successful open. -/
theorem C7_witness :
    parseChartValuesFileComments ⟨some "io failure", [], none⟩ =
      (emptyDescMap, some "io failure") ∧
    parseChartValuesFileComments ⟨none, ["# a -- b", "x: 1"], none⟩ =
      (parseValuesComments ["# a -- b", "x: 1"], none) :=
  ⟨(C7_open_error_only ⟨some "io failure", [], none⟩).1 "io failure" rfl,
   (C7_open_error_only ⟨none, ["# a -- b", "x: 1"], none⟩).2 rfl none⟩

/-- C8: when no line matches the description-start pattern the extractor
returns the empty mapping (it never leaves searching mode and never
inserts). -/
theorem C8_no_match_empty_map (lines : List String)
    (h : ∀ l ∈ lines, valuesDescriptionMatch l = none) :
    parseValuesComments lines = emptyDescMap := by
  show (scanLines initState lines).keyToDescriptions = emptyDescMap
  rw [scanLines_all_skipped lines h]
  rfl

/-- C8 witness: two non-matching lines (a plain value line and a comment
without the delimiter) yield the empty mapping. -/
theorem C8_witness :
    (∀ l ∈ ["replicaCount: 3", "# just a comment"], valuesDescriptionMatch l = none) ∧
    parseValuesComments ["replicaCount: 3", "# just a comment"] = emptyDescMap :=
  ⟨by decide, C8_no_match_empty_map ["replicaCount: 3", "# just a comment"] (by decide)⟩

/-- C9 counterexample: `"# @default -- b -- c"` is a default-override
annotation (pattern 2 captures `"b -- c"`), yet in searching mode it does
not match the description-start pattern with key `"@default"`: the greedy
key capture extends to the last delimiter, giving key `"@default -- b"`,
so accumulation begins for `"@default -- b"`, not `"@default"`. -/
theorem C9_counterexample :
    defaultValueMatch "# @default -- b -- c" = some "b -- c" ∧
    valuesDescriptionMatch "# @default -- b -- c" ≠ some ("@default", "b -- c") ∧
    valuesDescriptionMatch "# @default -- b -- c" = some ("@default -- b", "c") ∧
    (processLine initState "# @default -- b -- c").key = "@default -- b" := by
  refine ⟨by decide, ?_, by decide, by decide⟩
  decide

/-- C9 (amended): a default-override annotation `<ws># @default -- <text>`
whose text contains no further delimiter occurrence and does not begin
with `"-- "` matches the description-start pattern in searching mode with
key `"@default"` and description `<text>`; such an annotation not preceded
by a description-start line therefore begins accumulation under the
literal key `"@default"`, and once a terminating line finalizes it the
result mapping contains an entry under `"@default"`. -/
theorem C9_default_as_key (ws t : List Char) (term : String)
    (hws : ws.all goWhitespace = true)
    (ht1 : containsDescDelim t = false)
    (ht2 : stripLit dashDashSp t = none)
    (hterm1 : defaultValueMatch term = none)
    (hterm2 : commentContinuationMatch term = none) :
    defaultValueMatch ⟨ws ++ '#' :: ' ' :: ("@default".data ++ descDelim ++ t)⟩ = some ⟨t⟩ ∧
    valuesDescriptionMatch ⟨ws ++ '#' :: ' ' :: ("@default".data ++ descDelim ++ t)⟩ =
      some ("@default", ⟨t⟩) ∧
    parseValuesComments
        [⟨ws ++ '#' :: ' ' :: ("@default".data ++ descDelim ++ t)⟩, term] "@default" =
      some ⟨⟨t⟩, ""⟩ := by
  have hsplit : splitLastDescDelim ("@default".data ++ descDelim ++ t) =
      some ("@default".data, t) := by
    have h0 := splitLastDescDelim_delim_t t ht1 ht2
    have h1 := splitLastDescDelim_prepend "@default".data (descDelim ++ t) [] t h0
    simpa using h1
  have hdesc : valuesDescriptionMatch ⟨ws ++ '#' :: ' ' :: ("@default".data ++ descDelim ++ t)⟩ =
      some ("@default", ⟨t⟩) := by
    rw [descMatch_mk ws ("@default".data ++ descDelim ++ t) hws, hsplit]
  have hdef : defaultValueMatch ⟨ws ++ '#' :: ' ' :: ("@default".data ++ descDelim ++ t)⟩ =
      some ⟨t⟩ := by
    unfold defaultValueMatch
    have hdata : (⟨ws ++ '#' :: ' ' :: ("@default".data ++ descDelim ++ t)⟩ : String).data =
        ws ++ '#' :: (' ' :: ("@default".data ++ descDelim ++ t)) := rfl
    rw [hdata, dropWhile_ws_hash ws (' ' :: ("@default".data ++ descDelim ++ t)) hws]
    have hlit : '#' :: ' ' :: ("@default".data ++ descDelim ++ t) = defaultLit ++ t := rfl
    rw [hlit, stripLit_self]
  refine ⟨hdef, hdesc, ?_⟩
  have h1 := processLine_searching_found initState
    ⟨ws ++ '#' :: ' ' :: ("@default".data ++ descDelim ++ t)⟩ "@default" ⟨t⟩ rfl hdesc
  have h2 := processLine_accumulating_close
    { initState with foundValuesComment := true, key := "@default", description := ⟨t⟩ }
    term rfl hterm1 hterm2
  show (processLine (processLine initState
      ⟨ws ++ '#' :: ' ' :: ("@default".data ++ descDelim ++ t)⟩) term).keyToDescriptions
      "@default" = _
  rw [h1, h2]
  simp [mapInsert]

/-- C9 witness: the amended statement at `"# @default -- hello"` (no
leading whitespace) followed by a terminating value line. -/
theorem C9_witness :
    containsDescDelim ("hello" : String).data = false ∧
    (defaultValueMatch ⟨[] ++ '#' :: ' ' :: ("@default".data ++ descDelim ++ ("hello" : String).data)⟩ =
        some ⟨("hello" : String).data⟩ ∧
     valuesDescriptionMatch ⟨[] ++ '#' :: ' ' :: ("@default".data ++ descDelim ++ ("hello" : String).data)⟩ =
        some ("@default", ⟨("hello" : String).data⟩) ∧
     parseValuesComments
         [⟨[] ++ '#' :: ' ' :: ("@default".data ++ descDelim ++ ("hello" : String).data)⟩, "x: 1"]
         "@default" =
       some ⟨⟨("hello" : String).data⟩, ""⟩) :=
  ⟨by decide,
   C9_default_as_key [] ("hello" : String).data "x: 1"
     (by decide) (by decide) (by decide) (by decide) (by decide)⟩

/-- C10: a record finalized by a non-matching line (no default-override
seen) is indistinguishable from one closed by an explicit
`"# @default -- "` annotation with empty text: both store
`Default = ""`, since the record's default is a plain string with zero
value `""`, not an optional. -/
theorem C10_empty_default_indistinguishable (st : ScanState) (term : String)
    (hmode : st.foundValuesComment = true)
    (hterm1 : defaultValueMatch term = none)
    (hterm2 : commentContinuationMatch term = none) :
    processLine st term = processLine st "# @default -- " := by
  rw [processLine_accumulating_close st term hmode hterm1 hterm2,
    processLine_accumulating_default st "# @default -- " "" hmode (by decide)]

/-- C10 witness: at a concrete accumulating state, the close produced by
the value line `"x: 1"` equals the close produced by an empty explicit
default annotation. -/
theorem C10_witness :
    processLine ⟨true, "k", "some docs", emptyDescMap⟩ "x: 1" =
      processLine ⟨true, "k", "some docs", emptyDescMap⟩ "# @default -- " :=
  C10_empty_default_indistinguishable ⟨true, "k", "some docs", emptyDescMap⟩ "x: 1"
    rfl (by decide) (by decide)
